import Mathlib

/-!
# Verification of ctrait's entity-container and game-loop core

Shallow embedding of the `ctrait` crate's core (`src/entity.rs` /
`src/game.rs`, `src/renderer.rs` / `src/render/renderer.rs`): the
reference-counted entity handles (`Entity<T> = Arc<Mutex<T>>`), the
weak-reference containers (`Entities` / `EntityContainer`), and the
dispatch passes of `Game::start`, `Renderer::process_event` and
`Renderer::render`.

Modelling conventions:
* An entity allocation is identified by a natural-number id.  The heap
  records, per allocation, the current strong and weak reference counts
  (the `Arc` control block).  `Weak::upgrade` succeeds exactly when the
  strong count is positive; the transient strong reference that a
  successful `upgrade` returns is dropped again at the end of the
  dispatch statement, so the model leaves the count unchanged.
* A container `Entities<T>` / `EntityContainer<T>` is `Arc<Mutex<Vec<Weak<...>>>>`;
  the `Arc` identity of its shared vector is a natural number `ref`
  indexing into a store of sequences.  `Clone for EntityContainer`
  (`Self(Arc::clone(&self.0))`) yields a handle with the same `ref`.
* Time (`Instant`, deltas) and the SDL canvas are external; dispatch
  passes are observed through the list of callback invocations they
  perform, in order.
-/

namespace Ctrait

/-- The `Arc` control block of one entity allocation: its id together
with the current strong and weak reference counts. -/
structure RefCell where
  id : Nat
  strong : Nat
  weak : Nat
  deriving Repr, DecidableEq

/-- The heap: the set of entity allocations, as an association list of
control blocks. -/
abbrev Heap := List RefCell

namespace Heap

/-- The strong count of allocation `i` (0 when `i` was never allocated:
an absent allocation behaves like a destroyed one). -/
def strongCount (h : Heap) (i : Nat) : Nat :=
  ((h.find? (fun c => c.id == i)).map RefCell.strong).getD 0

/-- `Arc::downgrade`: producing a new `Weak` increments the weak count
and leaves the strong count untouched. -/
def downgrade (h : Heap) (i : Nat) : Heap :=
  h.map (fun c => if c.id == i then { c with weak := c.weak + 1 } else c)

/-- Dropping one strong reference (`drop::<Arc<_>>`): decrements the
strong count; when it reaches 0 the value is destroyed. -/
def dropStrong (h : Heap) (i : Nat) : Heap :=
  h.map (fun c => if c.id == i then { c with strong := c.strong - 1 } else c)

end Heap

/-- `Weak::upgrade`: returns a strong reference to the allocation iff
its strong count is still positive, `none` once the value has been
destroyed. -/
def upgrade (h : Heap) (i : Nat) : Option Nat :=
  if h.strongCount i ≠ 0 then some i else none

/-- A container handle (`Entities<T>` in `src/entity.rs`,
`EntityContainer<T>` in `src/game.rs`): a clonable handle on an
`Arc<Mutex<Vec<Weak<Mutex<T>>>>>`.  `ref` is the identity of the shared
vector's allocation. -/
structure EntityContainer where
  ref : Nat
  deriving Repr, DecidableEq

/-- `impl Clone for EntityContainer` is `Self(Arc::clone(&self.0))`:
the clone shares the same underlying vector (same `Arc`), so the handle
carries the same `ref`. -/
def EntityContainer.clone (c : EntityContainer) : EntityContainer :=
  ⟨c.ref⟩

/-- The store of container-vector allocations: position `r` holds the
sequence of entity ids whose `Weak` references the vector with `Arc`
identity `r` currently stores. -/
abbrev Store := List (List Nat)

namespace Store

/-- Read the shared vector with `Arc` identity `r` (an unallocated
identity reads as the empty sequence). -/
def getSeq : Store → Nat → List Nat
  | [], _ => []
  | l :: _, 0 => l
  | _ :: rest, n + 1 => getSeq rest n

/-- Replace the shared vector with `Arc` identity `r`. -/
def setSeq : Store → Nat → List Nat → Store
  | [], _, _ => []
  | _ :: rest, 0, l => l :: rest
  | x :: rest, n + 1, l => x :: setSeq rest n l

theorem getSeq_setSeq_self (s : Store) (n : Nat) (l : List Nat) :
    (s.setSeq n l).getSeq n = if n < s.length then l else [] := by
  induction s generalizing n with
  | nil => simp [setSeq, getSeq]
  | cons x rest ih =>
    cases n with
    | zero => simp [setSeq, getSeq]
    | succ m => simpa [setSeq, getSeq, Nat.succ_lt_succ_iff] using ih m

theorem getSeq_nil_of_ge (s : Store) (n : Nat) (hn : s.length ≤ n) :
    s.getSeq n = [] := by
  induction s generalizing n with
  | nil => simp [getSeq]
  | cons x rest ih =>
    cases n with
    | zero => simp at hn
    | succ m => exact ih m (by simpa using hn)

end Store

namespace EntityContainer

/-- `EntityContainer::prune`
(`entities.retain(|entity| entity.upgrade().is_some())`): keep exactly
the entries whose weak reference still upgrades, preserving order. -/
def prune (h : Heap) (l : List Nat) : List Nat :=
  l.filter (fun i => (upgrade h i).isSome)

/-- `EntityContainer::push`
(`self.0.lock().unwrap().push(Arc::downgrade(entity))`): downgrade the
strong reference (weak count + 1, strong count untouched) and append
the weak reference at the end of the shared vector. -/
def push (h : Heap) (s : Store) (c : EntityContainer) (i : Nat) :
    Heap × Store :=
  (h.downgrade i, s.setSeq c.ref (s.getSeq c.ref ++ [i]))

/-- `EntityContainer::add_entities`: `push` for each element of the
slice, in slice order. -/
def add_entities (h : Heap) (s : Store) (c : EntityContainer)
    (slice : List Nat) : Heap × Store :=
  slice.foldl (fun acc i => push acc.1 acc.2 c i) (h, s)

/-- `EntityContainer::clear`: empties the shared vector; entity
lifetimes (the heap) are untouched. -/
def clear (h : Heap) (s : Store) (c : EntityContainer) : Heap × Store :=
  (h, s.setSeq c.ref [])

/-- `EntityContainer::access`: lock the shared vector, prune it in
place, and return the shared `Arc`.  Note the `MutexGuard` is a
temporary of the function body, so the container lock is *released*
when `access` returns; every caller re-locks the returned `Arc` with
a separate `.lock()` call. -/
def access (h : Heap) (s : Store) (c : EntityContainer) : Store :=
  s.setSeq c.ref (prune h (s.getSeq c.ref))

/-- The sequence a caller of `access` observes after re-locking. -/
def accessSeq (h : Heap) (s : Store) (c : EntityContainer) : List Nat :=
  (access h s c).getSeq c.ref

end EntityContainer

theorem accessSeq_eq_prune (h : Heap) (s : Store) (c : EntityContainer) :
    EntityContainer.accessSeq h s c =
      EntityContainer.prune h (s.getSeq c.ref) := by
  unfold EntityContainer.accessSeq EntityContainer.access
  rw [Store.getSeq_setSeq_self]
  split
  · rfl
  · rw [Store.getSeq_nil_of_ge s c.ref (by omega)]
    rfl

/-! ## Renderer (`src/renderer.rs`, `src/render/renderer.rs`) -/

/-- SDL events as seen by `Renderer::process_event`: the reserved
`Event::Quit` variant plus opaque payload variants forwarded verbatim
to `Interactive::on_event`. -/
inductive Event where
  | Quit : Event
  | KeyDown : Nat → Event
  | KeyUp : Nat → Event
  | Other : Nat → Event
  deriving Repr, DecidableEq

/-- The `Renderer` state the core reads and writes: the `quit` flag and
the optionally attached camera entity (`camera: Option<Entity<Camera>>`,
identified by its allocation id).  The canvas and the SDL event pump
are external collaborators. -/
structure Renderer where
  quit : Bool
  camera : Option Nat
  deriving Repr, DecidableEq

/-- The event loop of `Renderer::process_event`, after the initial
`entities.access()`: scan the polled batch in order; at `Event::Quit`
set the quit flag and `break` (no further event of the batch is
examined); for any other event invoke `on_event` on every entry of the
shared (already pruned) sequence, in order.  Returns the invocation log
(event, entity id) and whether the quit flag was set. -/
def dispatchEvents (seq : List Nat) : List Event → List (Event × Nat) × Bool
  | [] => ([], false)
  | Event.Quit :: _ => ([], true)
  | e :: rest =>
    let r := dispatchEvents seq rest
    (seq.map (fun i => (e, i)) ++ r.1, r.2)

/-- `Renderer::process_event`: call `access` on the interactive
container (lock, prune, unlock), then run the event loop over the
polled batch.  Returns the updated renderer, the updated store and the
`on_event` invocation log in order. -/
def Renderer.processEvent (r : Renderer) (h : Heap) (s : Store)
    (c : EntityContainer) (events : List Event) :
    Renderer × Store × List (Event × Nat) :=
  let s1 := EntityContainer.access h s c
  let d := dispatchEvents (s1.getSeq c.ref) events
  ({ r with quit := r.quit || d.2 }, s1, d.1)

/-- Observable canvas/render operations performed by `Renderer::render`
in order. -/
inductive RenderAction where
  | cameraUpdate : Nat → RenderAction
  | clearCanvas : RenderAction
  | renderEntity : Nat → RenderAction
  | present : RenderAction
  deriving Repr, DecidableEq

/-- `Renderer::render`: everything is guarded by
`if let Some(camera) = &mut self.camera`.  With a camera: update the
camera from the canvas, set the draw color and clear, call `render` on
every entry of the accessed (pruned) renderable sequence in order, then
present.  With no camera: nothing at all happens — the container is not
even accessed (not pruned), and no error is reported. -/
def Renderer.render (r : Renderer) (h : Heap) (s : Store)
    (c : EntityContainer) : Store × List RenderAction :=
  match r.camera with
  | none => (s, [])
  | some cam =>
    let s1 := EntityContainer.access h s c
    (s1, RenderAction.cameraUpdate cam :: RenderAction.clearCanvas ::
      (s1.getSeq c.ref).map RenderAction.renderEntity ++
      [RenderAction.present])

/-! ## Game (`src/game.rs`) -/

/-- Round the positive rational `num / den` to the nearest integer,
halves away from zero (the computations below never hit a tie). -/
def nearestInt (num den : Nat) : Nat :=
  (2 * num + den) / (2 * den)

/-- The IEEE f64 value of `1.0 / 50.0`, scaled by `2 ^ 58`.  `1 / 50`
lies in the binade `[2 ^ (-6), 2 ^ (-5))` where a double's ulp is
`2 ^ (-58)`, so the f64 quotient is the nearest multiple of
`2 ^ (-58)`. -/
def f64InvFifty : Nat := nearestInt (2 ^ 58) 50

/-- The IEEE f64 value of `(1.0 / 50.0) * 1000.0`, scaled by `2 ^ 48`.
The exact product `f64InvFifty * 1000 / 2 ^ 58` lies in the binade
`[16, 32)` where a double's ulp is `2 ^ (-48)`, so the f64 product is
the nearest multiple of `2 ^ (-48)`, i.e. dividing the scaled exact
product by `2 ^ 10` and rounding to nearest. -/
def f64Timestep : Nat := nearestInt (f64InvFifty * 1000) (2 ^ 10)

namespace Game

/-- `Game::DEFAULT_TIMESTEP = ((1.0 / 50.0) * 1000.0) as i64`: the
`as i64` cast truncates the f64 value toward zero. -/
def DEFAULT_TIMESTEP : Int := (f64Timestep / 2 ^ 48 : Nat)

end Game

/-- `Game`: holds the four entity containers and the fixed-update
timestep in milliseconds. -/
structure Game where
  update_entities : EntityContainer
  fixed_update_entities : EntityContainer
  renderable_entities : EntityContainer
  interactive_entities : EntityContainer
  timestep : Int
  deriving Repr, DecidableEq

namespace Game

/-- `impl Default for Game`: four freshly allocated empty containers
and the default timestep.  Allocating four new `Arc<Mutex<Vec<_>>>`
extends the store with four fresh empty sequences. -/
def defaultG (s : Store) : Game × Store :=
  (⟨⟨s.length⟩, ⟨s.length + 1⟩, ⟨s.length + 2⟩, ⟨s.length + 3⟩,
    DEFAULT_TIMESTEP⟩,
   s ++ [[], [], [], []])

/-- `Game::with_timestep`: `self.timestep = timestep; self` — replaces
the timestep field with the caller's value as given and returns the
game otherwise unchanged. -/
def with_timestep (g : Game) (timestep : Int) : Game :=
  { g with timestep := timestep }

end Game

/-- The outcome of one iteration of the main loop body of
`Game::start` (steps in textual order of the source): `process_event`
on the interactive container, then the update dispatch over the
accessed update container, then the `has_quit` test — `break` when
set, otherwise `Renderer::render` on the renderable container. -/
structure IterResult where
  renderer : Renderer
  store : Store
  eventLog : List (Event × Nat)
  updateLog : List Nat
  renderCalled : Bool
  renderLog : List RenderAction
  exited : Bool
  deriving Repr, DecidableEq

/-- One iteration of the `loop` in `Game::start`:
1. `renderer.process_event(&mut event_pump, &mut self.interactive_entities)`;
2. `self.update_entities.access().lock().unwrap().iter().for_each(update)` —
   `updateLog` is the order in which `update` is invoked;
3. `if renderer.has_quit() { break; }`;
4. `renderer.render(&mut render_context, &mut self.renderable_entities)`.
The loop exits after step 3 on the terminal iteration, so `update` runs
on it while `render` does not. -/
def Game.mainIteration (g : Game) (r : Renderer) (h : Heap) (s : Store)
    (events : List Event) : IterResult :=
  let pe := Renderer.processEvent r h s g.interactive_entities events
  let s2 := EntityContainer.access h pe.2.1 g.update_entities
  let upLog := s2.getSeq g.update_entities.ref
  if pe.1.quit then
    ⟨pe.1, s2, pe.2.2, upLog, false, [], true⟩
  else
    let rd := Renderer.render pe.1 h s2 g.renderable_entities
    ⟨pe.1, rd.1, pe.2.2, upLog, true, rd.2, false⟩

/-! ## The prune-to-dispatch window of the update loop (claim C1) -/

/-- The update phase of the main loop,
`self.update_entities.access().lock().unwrap().iter().for_each(|entity|
entity.upgrade().unwrap()...)`, with the window between the two lock
scopes made explicit.  `access` locks the container, prunes, and
releases the lock when it returns (its `MutexGuard` is a temporary of
the function body); the caller then re-locks with `.lock()` and
iterates, upgrading each entry.  Dropping an `Arc` strong reference
never takes the container lock, so other threads (e.g. a user callback
on the fixed-update timer thread holding a clone of an entity) may drop
strong references in that window; `gapDrops` lists those drops.
Returns the `upgrade()` outcome of each iterated entry in order; a
`none` entry is the case in which `.upgrade().unwrap()` panics. -/
def updateDispatchOutcomes (h : Heap) (seq : List Nat)
    (gapDrops : List Nat) : List (Option Nat) :=
  let pruned := EntityContainer.prune h seq
  let h2 := gapDrops.foldl Heap.dropStrong h
  pruned.map (upgrade h2)

/-! ## Supporting lemmas -/

theorem length_setSeq (s : Store) (n : Nat) (l : List Nat) :
    (s.setSeq n l).length = s.length := by
  induction s generalizing n with
  | nil => rfl
  | cons x rest ih =>
    cases n with
    | zero => rfl
    | succ m => simpa [Store.setSeq] using ih m

theorem upgrade_isSome_iff (h : Heap) (i : Nat) :
    (upgrade h i).isSome = true ↔ 0 < Heap.strongCount h i := by
  unfold upgrade
  split <;> simp <;> omega

theorem upgrade_eq_none_of_dead (h : Heap) (i : Nat)
    (hz : Heap.strongCount h i = 0) : upgrade h i = none := by
  simp [upgrade, hz]

theorem mem_prune_iff (h : Heap) (l : List Nat) (i : Nat) :
    i ∈ EntityContainer.prune h l ↔ i ∈ l ∧ 0 < Heap.strongCount h i := by
  simp [EntityContainer.prune, List.mem_filter, upgrade_isSome_iff]

theorem prune_sublist (h : Heap) (l : List Nat) :
    List.Sublist (EntityContainer.prune h l) l :=
  List.filter_sublist l

/-- A map over the heap that changes neither ids nor strong counts
changes no strong count. -/
theorem strongCount_map_of_preserve (f : RefCell → RefCell)
    (hid : ∀ c : RefCell, (f c).id = c.id)
    (hstr : ∀ c : RefCell, (f c).strong = c.strong)
    (h : Heap) (j : Nat) :
    Heap.strongCount (h.map f) j = Heap.strongCount h j := by
  induction h with
  | nil => rfl
  | cons c t ih =>
    by_cases hcj : c.id = j
    · have h1 : ((f c).id == j) = true := by simp [hid, hcj]
      have h2 : (c.id == j) = true := by simp [hcj]
      simp [Heap.strongCount, List.find?, h1, h2, hstr]
    · have h1 : ((f c).id == j) = false := by simp [hid, hcj]
      have h2 : (c.id == j) = false := by simp [hcj]
      simpa [Heap.strongCount, List.find?, h1, h2] using ih

/-- `Arc::downgrade` never changes a strong count. -/
theorem strongCount_downgrade (h : Heap) (i j : Nat) :
    Heap.strongCount (h.downgrade i) j = Heap.strongCount h j := by
  unfold Heap.downgrade
  refine strongCount_map_of_preserve _ ?_ ?_ h j <;> intro c <;>
    by_cases hc : c.id == i <;> simp [hc]

/-- Dropping a strong reference to `i` decrements `i`'s strong
count. -/
theorem strongCount_dropStrong_self (h : Heap) (i : Nat) :
    Heap.strongCount (h.dropStrong i) i = Heap.strongCount h i - 1 := by
  induction h with
  | nil => rfl
  | cons c t ih =>
    by_cases hc : c.id = i
    · have h2 : (c.id == i) = true := by simp [hc]
      simp [Heap.dropStrong, Heap.strongCount, List.find?, h2]
    · have h2 : (c.id == i) = false := by simp [hc]
      simpa [Heap.dropStrong, Heap.strongCount, List.find?, h2] using ih

/-- `EntityContainer.push` never changes any strong count (it only
downgrades). -/
theorem strongCount_push (h : Heap) (s : Store) (c : EntityContainer)
    (i j : Nat) :
    Heap.strongCount (EntityContainer.push h s c i).1 j =
      Heap.strongCount h j :=
  strongCount_downgrade h i j

/-! ## Claim theorems -/

/-- C9: if no camera has been attached (`camera` is `None`),
`Renderer::render` is a complete no-op: the store is untouched (the
renderable container is not accessed, hence not pruned) and no canvas
action — clear, per-entity render, present — is performed; no error is
reported (the function returns unit). -/
theorem render_noop_without_camera (q : Bool) (h : Heap) (s : Store)
    (c : EntityContainer) :
    Renderer.render ⟨q, none⟩ h s c = (s, []) := rfl

/-- C10: `Game::with_timestep` stores the given value unchanged — any
`i64`, including zero and negative values, no validation — and modifies
only the `timestep` field: all four entity containers are the very same
shared containers (same underlying `Arc`) before and after the call. -/
theorem with_timestep_frame (g : Game) (t : Int) :
    (g.with_timestep t).timestep = t ∧
    (g.with_timestep t).update_entities = g.update_entities ∧
    (g.with_timestep t).fixed_update_entities = g.fixed_update_entities ∧
    (g.with_timestep t).renderable_entities = g.renderable_entities ∧
    (g.with_timestep t).interactive_entities = g.interactive_entities :=
  ⟨rfl, rfl, rfl, rfl, rfl⟩

/-- C8: `Game::DEFAULT_TIMESTEP = ((1.0 / 50.0) * 1000.0) as i64`
evaluates to exactly 20 milliseconds (50 Hz): the two f64 roundings
land on exactly 20.0 and the cast truncates it to 20.  `Game::default`
installs it, and `with_timestep` replaces it with the caller-supplied
value before `start`. -/
theorem default_timestep_is_twenty (s : Store) (g : Game) (t : Int) :
    Game.DEFAULT_TIMESTEP = 20 ∧
    (Game.defaultG s).1.timestep = 20 ∧
    (g.with_timestep t).timestep = t := by
  have h20 : Game.DEFAULT_TIMESTEP = 20 := by decide
  exact ⟨h20, h20, rfl⟩

/-- C5: in one main-driver iteration, a polled batch
`[KeyDown, Quit, KeyUp]` dispatches only `KeyDown` to the interactive
entities (each live entry, in order); observing `Quit` sets the quit
flag and stops the event loop, so `KeyUp` is discarded. -/
theorem quit_preempts_batch (r : Renderer) (h : Heap) (s : Store)
    (c : EntityContainer) (k1 k2 : Nat) :
    (Renderer.processEvent r h s c
        [Event.KeyDown k1, Event.Quit, Event.KeyUp k2]).2.2 =
      (EntityContainer.accessSeq h s c).map (fun i => (Event.KeyDown k1, i))
    ∧ (Renderer.processEvent r h s c
        [Event.KeyDown k1, Event.Quit, Event.KeyUp k2]).1.quit = true := by
  constructor <;>
    simp [Renderer.processEvent, dispatchEvents, EntityContainer.accessSeq]

/-- C2: `access` removes exactly the entries whose weak reference fails
to upgrade, keeps survivors in their original relative order, and in
particular after pushing an entity with strong count 1 into a container
and dropping that only strong reference, the next `access` leaves no
entry for that entity. -/
theorem access_removes_exactly_dead (h : Heap) (s : Store)
    (c : EntityContainer) (e : Nat) (he : Heap.strongCount h e = 1) :
    EntityContainer.accessSeq h s c =
      (s.getSeq c.ref).filter (fun i => (upgrade h i).isSome)
    ∧ List.Sublist (EntityContainer.accessSeq h s c) (s.getSeq c.ref)
    ∧ (∀ i, i ∈ EntityContainer.accessSeq h s c ↔
        i ∈ s.getSeq c.ref ∧ 0 < Heap.strongCount h i)
    ∧ e ∉ EntityContainer.accessSeq
        (Heap.dropStrong (EntityContainer.push h s c e).1 e)
        (EntityContainer.push h s c e).2 c := by
  refine ⟨accessSeq_eq_prune h s c, ?_, ?_, ?_⟩
  · rw [accessSeq_eq_prune]
    exact prune_sublist h _
  · intro i
    rw [accessSeq_eq_prune]
    exact mem_prune_iff h _ i
  · rw [accessSeq_eq_prune]
    rw [mem_prune_iff]
    rintro ⟨-, hpos⟩
    rw [strongCount_dropStrong_self, strongCount_push, he] at hpos
    omega

/-- Witness for C2 at a concrete input: entity 0 with strong count 1,
pushed into the sole container and then dropped, is gone after
`access`. -/
theorem access_removes_exactly_dead_witness :
    (0 : Nat) ∉ EntityContainer.accessSeq
      (Heap.dropStrong (EntityContainer.push [⟨0, 1, 0⟩] [[]] ⟨0⟩ 0).1 0)
      (EntityContainer.push [⟨0, 1, 0⟩] [[]] ⟨0⟩ 0).2 ⟨0⟩ :=
  (access_removes_exactly_dead [⟨0, 1, 0⟩] [[]] ⟨0⟩ 0 (by decide)).2.2.2

theorem getSeq_push (h : Heap) (s : Store) (c : EntityContainer) (i : Nat)
    (hc : c.ref < s.length) :
    (EntityContainer.push h s c i).2.getSeq c.ref =
      s.getSeq c.ref ++ [i] := by
  simp [EntityContainer.push, Store.getSeq_setSeq_self, hc]

theorem length_push (h : Heap) (s : Store) (c : EntityContainer) (i : Nat) :
    (EntityContainer.push h s c i).2.length = s.length := by
  simp [EntityContainer.push, length_setSeq]

theorem getSeq_add_entities (h : Heap) (s : Store) (c : EntityContainer)
    (slice : List Nat) (hc : c.ref < s.length) :
    (EntityContainer.add_entities h s c slice).2.getSeq c.ref =
      s.getSeq c.ref ++ slice := by
  induction slice generalizing h s with
  | nil => simp [EntityContainer.add_entities]
  | cons x xs ih =>
    have hc1 : c.ref < (EntityContainer.push h s c x).2.length := by
      rw [length_push]; exact hc
    calc (EntityContainer.add_entities h s c (x :: xs)).2.getSeq c.ref
        = (EntityContainer.add_entities (EntityContainer.push h s c x).1
            (EntityContainer.push h s c x).2 c xs).2.getSeq c.ref := rfl
      _ = (EntityContainer.push h s c x).2.getSeq c.ref ++ xs :=
          ih _ _ hc1
      _ = s.getSeq c.ref ++ x :: xs := by
          rw [getSeq_push h s c x hc]; simp

theorem strongCount_add_entities (h : Heap) (s : Store)
    (c : EntityContainer) (slice : List Nat) (j : Nat) :
    Heap.strongCount (EntityContainer.add_entities h s c slice).1 j =
      Heap.strongCount h j := by
  induction slice generalizing h s with
  | nil => rfl
  | cons x xs ih =>
    calc Heap.strongCount (EntityContainer.add_entities h s c (x :: xs)).1 j
        = Heap.strongCount (EntityContainer.add_entities
            (EntityContainer.push h s c x).1
            (EntityContainer.push h s c x).2 c xs).1 j := rfl
      _ = Heap.strongCount (EntityContainer.push h s c x).1 j := ih _ _
      _ = Heap.strongCount h j := strongCount_push h s c x j

/-- C3: `push` appends at the end of the shared vector with no
uniqueness check, so pushing `a, b, d, b` into an empty container (all
alive) makes one full dispatch pass (`access` then iterate) invoke the
capability method exactly in insertion order `a, b, d, b` — the
duplicated entity is dispatched twice. -/
theorem dispatch_in_insertion_order (h : Heap) (s : Store)
    (c : EntityContainer) (a b d i : Nat)
    (hc : c.ref < s.length) (hempty : s.getSeq c.ref = [])
    (ha : 0 < Heap.strongCount h a) (hb : 0 < Heap.strongCount h b)
    (hd : 0 < Heap.strongCount h d) :
    (EntityContainer.push h s c i).2.getSeq c.ref = s.getSeq c.ref ++ [i]
    ∧ EntityContainer.accessSeq
        (EntityContainer.add_entities h s c [a, b, d, b]).1
        (EntityContainer.add_entities h s c [a, b, d, b]).2 c =
      [a, b, d, b] := by
  refine ⟨getSeq_push h s c i hc, ?_⟩
  rw [accessSeq_eq_prune, getSeq_add_entities h s c _ hc, hempty]
  have hcount : ∀ j, Heap.strongCount
      (EntityContainer.add_entities h s c [a, b, d, b]).1 j =
      Heap.strongCount h j :=
    fun j => strongCount_add_entities h s c _ j
  have halive : ∀ x ∈ [a, b, d, b],
      (upgrade (EntityContainer.add_entities h s c [a, b, d, b]).1 x).isSome
        = true := by
    intro x hx
    rw [upgrade_isSome_iff, hcount]
    simp only [List.mem_cons, List.not_mem_nil, or_false] at hx
    rcases hx with rfl | rfl | rfl | rfl
    · exact ha
    · exact hb
    · exact hd
    · exact hb
  simpa [EntityContainer.prune] using List.filter_eq_self.mpr halive

/-- Witness for C3: entities 1, 2, 3 pushed as 1, 2, 3, 2 into the
empty container 0 dispatch in exactly that order. -/
theorem dispatch_in_insertion_order_witness :
    EntityContainer.accessSeq
      (EntityContainer.add_entities
        [⟨1, 1, 0⟩, ⟨2, 1, 0⟩, ⟨3, 1, 0⟩] [[]] ⟨0⟩ [1, 2, 3, 2]).1
      (EntityContainer.add_entities
        [⟨1, 1, 0⟩, ⟨2, 1, 0⟩, ⟨3, 1, 0⟩] [[]] ⟨0⟩ [1, 2, 3, 2]).2 ⟨0⟩ =
    [1, 2, 3, 2] :=
  (dispatch_in_insertion_order [⟨1, 1, 0⟩, ⟨2, 1, 0⟩, ⟨3, 1, 0⟩] [[]]
    ⟨0⟩ 1 2 3 0 (by decide) (by decide) (by decide) (by decide)
    (by decide)).2

/-- C4: `Clone for EntityContainer` yields a handle on the very same
underlying `Arc` (same `ref`), not a copy; hence a `push` made through
the clone is visible through the original handle — in the raw shared
vector and through the original's `access` — and vice versa. -/
theorem clone_shares_state (h : Heap) (s : Store) (c : EntityContainer)
    (i : Nat) (hc : c.ref < s.length) (hi : 0 < Heap.strongCount h i) :
    EntityContainer.clone c = c
    ∧ (EntityContainer.push h s (EntityContainer.clone c) i).2.getSeq c.ref
        = s.getSeq c.ref ++ [i]
    ∧ (EntityContainer.push h s c i).2.getSeq (EntityContainer.clone c).ref
        = s.getSeq c.ref ++ [i]
    ∧ i ∈ EntityContainer.accessSeq
        (EntityContainer.push h s (EntityContainer.clone c) i).1
        (EntityContainer.push h s (EntityContainer.clone c) i).2 c := by
  have hcl : EntityContainer.clone c = c := rfl
  simp only [hcl]
  refine ⟨trivial, getSeq_push h s c i hc, getSeq_push h s c i hc, ?_⟩
  rw [accessSeq_eq_prune, mem_prune_iff]
  constructor
  · rw [getSeq_push h s c i hc]
    simp
  · rw [strongCount_push]
    exact hi

/-- Witness for C4: pushing entity 7 through the clone of container 0
is visible through the original's `access`. -/
theorem clone_shares_state_witness :
    (7 : Nat) ∈ EntityContainer.accessSeq
      (EntityContainer.push [⟨7, 1, 0⟩] [[]]
        (EntityContainer.clone ⟨0⟩) 7).1
      (EntityContainer.push [⟨7, 1, 0⟩] [[]]
        (EntityContainer.clone ⟨0⟩) 7).2 ⟨0⟩ :=
  (clone_shares_state [⟨7, 1, 0⟩] [[]] ⟨0⟩ 7 (by decide)
    (by decide)).2.2.2

/-- Registering an entity in any number of containers, in any order:
fold of `push` over (container, entity) pairs. -/
def pushMany (h : Heap) (s : Store)
    (ps : List (EntityContainer × Nat)) : Heap × Store :=
  ps.foldl (fun acc p => EntityContainer.push acc.1 acc.2 p.1 p.2) (h, s)

theorem strongCount_pushMany (h : Heap) (s : Store)
    (ps : List (EntityContainer × Nat)) (j : Nat) :
    Heap.strongCount (pushMany h s ps).1 j = Heap.strongCount h j := by
  induction ps generalizing h s with
  | nil => rfl
  | cons p ps ih =>
    calc Heap.strongCount (pushMany h s (p :: ps)).1 j
        = Heap.strongCount (pushMany (EntityContainer.push h s p.1 p.2).1
            (EntityContainer.push h s p.1 p.2).2 ps).1 j := rfl
      _ = Heap.strongCount (EntityContainer.push h s p.1 p.2).1 j := ih _ _
      _ = Heap.strongCount h j := strongCount_push h s p.1 p.2 j

/-- C7: registering an entity in any number of containers stores only
downgraded references and never changes any strong count, so
membership never keeps an entity alive: once the single strong
reference of entity `e` is dropped, its strong count is 0, every
upgrade of a weak reference to it fails, and `access` on every
container — whatever its contents — retains no entry for `e`. -/
theorem containers_never_keep_alive (h : Heap) (s : Store) (e j : Nat)
    (ps : List (EntityContainer × Nat))
    (he : Heap.strongCount h e = 1) :
    Heap.strongCount (pushMany h s ps).1 j = Heap.strongCount h j
    ∧ Heap.strongCount (Heap.dropStrong (pushMany h s ps).1 e) e = 0
    ∧ upgrade (Heap.dropStrong (pushMany h s ps).1 e) e = none
    ∧ ∀ s2 : Store, ∀ c2 : EntityContainer,
        e ∉ EntityContainer.accessSeq
          (Heap.dropStrong (pushMany h s ps).1 e) s2 c2 := by
  have hz : Heap.strongCount (Heap.dropStrong (pushMany h s ps).1 e) e = 0 := by
    rw [strongCount_dropStrong_self, strongCount_pushMany, he]
  refine ⟨strongCount_pushMany h s ps j, hz, upgrade_eq_none_of_dead _ _ hz, ?_⟩
  intro s2 c2
  rw [accessSeq_eq_prune, mem_prune_iff, hz]
  rintro ⟨-, h0⟩
  omega

/-- Witness for C7: entity 0 registered in two containers; after its
only strong reference is dropped, no weak reference to it upgrades. -/
theorem containers_never_keep_alive_witness :
    upgrade (Heap.dropStrong
      (pushMany [⟨0, 1, 0⟩] [[], []] [(⟨0⟩, 0), (⟨1⟩, 0)]).1 0) 0 = none :=
  (containers_never_keep_alive [⟨0, 1, 0⟩] [[], []] 0 0
    [(⟨0⟩, 0), (⟨1⟩, 0)] (by decide)).2.2.1

/-- C6: each main-driver iteration runs, in strict order: event
dispatch, then `update` on every live entry of the accessed update
container (also on the terminal iteration), then the quit-flag test —
exiting the loop when set — and only otherwise the render step. -/
theorem main_iteration_order (g : Game) (r : Renderer) (h : Heap)
    (s : Store) (events : List Event) :
    (g.mainIteration r h s events).eventLog =
      (Renderer.processEvent r h s g.interactive_entities events).2.2
    ∧ (g.mainIteration r h s events).updateLog =
      EntityContainer.prune h
        ((Renderer.processEvent r h s g.interactive_entities
          events).2.1.getSeq g.update_entities.ref)
    ∧ (g.mainIteration r h s events).exited =
      (Renderer.processEvent r h s g.interactive_entities events).1.quit
    ∧ (g.mainIteration r h s events).renderCalled =
      !(g.mainIteration r h s events).exited
    ∧ (g.mainIteration r h s events).renderLog =
      (if (Renderer.processEvent r h s g.interactive_entities
            events).1.quit then []
       else (Renderer.render
          (Renderer.processEvent r h s g.interactive_entities events).1 h
          (EntityContainer.access h
            (Renderer.processEvent r h s g.interactive_entities
              events).2.1 g.update_entities)
          g.renderable_entities).2) := by
  have hup := accessSeq_eq_prune h
    (Renderer.processEvent r h s g.interactive_entities events).2.1
    g.update_entities
  unfold EntityContainer.accessSeq at hup
  by_cases hq :
      (Renderer.processEvent r h s g.interactive_entities events).1.quit <;>
    simp [Game.mainIteration, hq, hup]

/-- C1 counterexample: entity 0 is alive (strong count 1) at prune
time, so it survives `access`'s prune; `access` releases the container
lock when it returns, and in the window before the caller re-locks and
iterates, another thread drops entity 0's only strong reference
(dropping an `Arc` strong reference takes no container lock).  The
dispatch iteration then upgrades `none`: `.upgrade().unwrap()` hits the
`None` branch and panics — refuting the claim that this can never
happen. -/
theorem prune_then_dispatch_can_hit_none :
    EntityContainer.prune [⟨0, 1, 1⟩] [0] = [0]
    ∧ updateDispatchOutcomes [⟨0, 1, 1⟩] [0] [0] = [none] := by
  decide

/-- C1 amended: when no strong reference is dropped in the window
between `access`'s prune and the caller's dispatch iteration, every
weak reference iterated after the prune upgrades successfully. -/
theorem no_drop_in_window_upgrades_all (h : Heap) (seq : List Nat) :
    (updateDispatchOutcomes h seq []).all Option.isSome = true := by
  simp only [updateDispatchOutcomes, EntityContainer.prune, List.foldl_nil,
    List.all_eq_true, List.mem_map, List.mem_filter]
  rintro o ⟨i, ⟨-, hsome⟩, rfl⟩
  exact hsome

end Ctrait
